import Mathlib

/-!
Verification of the greenlight JSON API core against its specification.

The definitions below are a shallow embedding of the Go source:

  * `internal/data/tokens.go` — token generation (base32 plaintext,
    SHA-256 hash), plaintext shape validation, `TokenModel.New`;
  * `cmd/api/middleware.go` — `authenticate`, `requireAuthenticatedUser`,
    `requireActivatedUser`, `requirePermission`, `rateLimit` (token bucket
    from golang.org/x/time/rate, plus the idle-client eviction loop);
  * `internal/data/filters.go` (current snapshot of the movie model) and
    `internal/data/users.go` — optimistic-concurrency `Update`, `Get`;
  * `internal/data/permissions.go` — `Permissions.Includes`;
  * `internal/validator.go` — the `Validator` error map.

Go byte strings are modelled as `List Nat` (one entry per byte) where the
Go code measures byte lengths, and as `String` where only whole-string
comparison matters.  Machine integers stay in `Int`/`Nat`: none of the
embedded code relies on wrap-around.  Time is rational (seconds).
Database interaction is modelled as explicit state passing over lists of
rows; `QueryRow(...).Scan` returning `sql.ErrNoRows` on an empty result
set becomes an explicit `noRows` outcome.
-/

deriving instance DecidableEq for Except

namespace Greenlight

/-- Splits a list into consecutive groups of `n` elements, the final group
possibly shorter.  Fuel-based so the recursion is structural; callers pass
`l.length` as fuel. -/
def chunkFuel (n : Nat) : Nat → List α → List (List α)
  | 0, _ => []
  | _, [] => []
  | fuel + 1, a :: l => (a :: l).take n :: chunkFuel n fuel ((a :: l).drop n)

/-- Consecutive groups of `n` elements of `l` (last group possibly short). -/
def chunks (n : Nat) (l : List α) : List (List α) := chunkFuel n l.length l

theorem chunkFuel_length_five :
    ∀ (fuel : Nat) (l : List Bool), l.length ≤ fuel →
      (chunkFuel 5 fuel l).length = (l.length + 4) / 5 := by
  intro fuel
  induction fuel with
  | zero =>
    intro l hl
    have : l = [] := List.length_eq_zero.mp (Nat.le_zero.mp hl)
    subst this
    simp [chunkFuel]
  | succ m ih =>
    intro l hl
    rcases l with _ | ⟨a, l⟩
    · simp [chunkFuel]
    · have hle : ((a :: l).drop 5).length ≤ m := by
        simp only [List.length_drop, List.length_cons] at hl ⊢; omega
      have hrec := ih _ hle
      simp only [List.length_drop, List.length_cons] at hrec
      show ((a :: l).take 5 :: chunkFuel 5 m ((a :: l).drop 5)).length = _
      simp only [List.length_cons, hrec]
      omega

theorem chunks_length_five (l : List Bool) :
    (chunks 5 l).length = (l.length + 4) / 5 :=
  chunkFuel_length_five l.length l (Nat.le_refl _)

/-- The eight bits of a byte, most significant first. -/
def byteToBits (b : Nat) : List Bool :=
  [b / 128 % 2 == 1, b / 64 % 2 == 1, b / 32 % 2 == 1, b / 16 % 2 == 1,
   b / 8 % 2 == 1, b / 4 % 2 == 1, b / 2 % 2 == 1, b % 2 == 1]

/-- Value of a bit list, most significant first. -/
def bitsToNat (bits : List Bool) : Nat :=
  bits.foldl (fun acc b => 2 * acc + (if b then 1 else 0)) 0

/-- The RFC 4648 standard base32 alphabet as ASCII byte values:
`A`..`Z` then `2`..`7`. -/
def base32Alphabet : List Nat :=
  (List.range 26).map (· + 65) ++ (List.range 6).map (· + 50)

/-- Base32 encoding without padding, as performed by Go
`base32.StdEncoding.WithPadding(base32.NoPadding).EncodeToString`: the
input bytes are read as a bit stream, grouped into 5-bit values (the last
group zero-padded on the right), and each value is mapped through the
standard alphabet.  Input and output are byte lists. -/
def base32EncodeNoPad (bs : List Nat) : List Nat :=
  (chunks 5 (bs.flatMap byteToBits)).map fun g =>
    base32Alphabet.getD (bitsToNat (g ++ List.replicate (5 - g.length) false)) 0

theorem base32EncodeNoPad_length (bs : List Nat) :
    (base32EncodeNoPad bs).length = (8 * bs.length + 4) / 5 := by
  have hbits : (bs.flatMap byteToBits).length = 8 * bs.length := by
    induction bs with
    | nil => simp
    | cons b l ih =>
      simp [List.flatMap_cons, ih, byteToBits]
      omega
  simp [base32EncodeNoPad, chunks_length_five, hbits]

/-! SHA-256 (FIPS 180-4), the digest Go `crypto/sha256.Sum256` computes.
The library is outside the repository, so the function is implemented here
in full and checked against the NIST empty-message test vector, keeping
every token-hash statement executable. -/

/-- Reduction to a 32-bit word. -/
def w32 (n : Nat) : Nat := n % 4294967296

/-- Right rotation of a 32-bit word. -/
def rotr (n x : Nat) : Nat := w32 ((x >>> n) ||| (x <<< (32 - n)))

def bsig0 (x : Nat) : Nat := rotr 2 x ^^^ rotr 13 x ^^^ rotr 22 x

def bsig1 (x : Nat) : Nat := rotr 6 x ^^^ rotr 11 x ^^^ rotr 25 x

def ssig0 (x : Nat) : Nat := rotr 7 x ^^^ rotr 18 x ^^^ (x >>> 3)

def ssig1 (x : Nat) : Nat := rotr 17 x ^^^ rotr 19 x ^^^ (x >>> 10)

def chFn (x y z : Nat) : Nat := (x &&& y) ^^^ ((x ^^^ 4294967295) &&& z)

def majFn (x y z : Nat) : Nat := (x &&& y) ^^^ (x &&& z) ^^^ (y &&& z)

/-- The 64 SHA-256 round constants. -/
def sha256K : List Nat :=
  [1116352408, 1899447441, 3049323471, 3921009573,
   961987163, 1508970993, 2453635748, 2870763221,
   3624381080, 310598401, 607225278, 1426881987,
   1925078388, 2162078206, 2614888103, 3248222580,
   3835390401, 4022224774, 264347078, 604807628,
   770255983, 1249150122, 1555081692, 1996064986,
   2554220882, 2821834349, 2952996808, 3210313671,
   3336571891, 3584528711, 113926993, 338241895,
   666307205, 773529912, 1294757372, 1396182291,
   1695183700, 1986661051, 2177026350, 2456956037,
   2730485921, 2820302411, 3259730800, 3345764771,
   3516065817, 3600352804, 4094571909, 275423344,
   430227734, 506948616, 659060556, 883997877,
   958139571, 1322822218, 1537002063, 1747873779,
   1955562222, 2024104815, 2227730452, 2361852424,
   2428436474, 2756734187, 3204031479, 3329325298]

/-- The SHA-256 initial hash value. -/
def sha256H0 : List Nat :=
  [1779033703, 3144134277, 1013904242, 2773480762,
   1359893119, 2600822924, 528734635, 1541459225]

/-- Big-endian bytes of `n`, `k` bytes wide. -/
def toBytesBE (k n : Nat) : List Nat :=
  (List.range k).map fun i => (n >>> (8 * (k - 1 - i))) % 256

/-- FIPS 180-4 message padding: a `0x80` byte, zeros to 56 mod 64, and the
bit length as a 64-bit big-endian integer. -/
def sha256Pad (msg : List Nat) : List Nat :=
  msg ++ [128] ++ List.replicate ((119 - msg.length % 64) % 64) 0
      ++ toBytesBE 8 (8 * msg.length)

/-- Extends the 16 words of a block by `n` further schedule words. -/
def sha256Extend (ws : List Nat) : Nat → List Nat
  | 0 => ws
  | n + 1 =>
    let ws := sha256Extend ws n
    let m := ws.length
    ws ++ [w32 (ssig1 (ws.getD (m - 2) 0) + ws.getD (m - 7) 0
           + ssig0 (ws.getD (m - 15) 0) + ws.getD (m - 16) 0)]

/-- One compression round on the eight working variables. -/
def sha256Round (s : List Nat) (k w : Nat) : List Nat :=
  match s with
  | [a, b, c, d, e, f, g, h] =>
    let t1 := w32 (h + bsig1 e + chFn e f g + k + w)
    let t2 := w32 (bsig0 a + majFn a b c)
    [w32 (t1 + t2), a, b, c, w32 (d + t1), e, f, g]
  | _ => s

/-- Processes one 64-byte block into the running hash value. -/
def sha256Block (h : List Nat) (block : List Nat) : List Nat :=
  let w16 := (chunks 4 block).map fun bts => bts.foldl (fun a x => 256 * a + x) 0
  let ws := sha256Extend w16 48
  let s := (sha256K.zip ws).foldl (fun s kw => sha256Round s kw.1 kw.2) h
  (h.zip s).map fun p => w32 (p.1 + p.2)

/-- SHA-256 of a byte list, as a 32-byte list. -/
def sha256Bytes (msg : List Nat) : List Nat :=
  ((chunks 64 (sha256Pad msg)).foldl sha256Block sha256H0).flatMap (toBytesBE 4)

set_option maxRecDepth 4000 in
/-- Sanity check of the implementation against the NIST test vector for the
empty message. -/
theorem sha256Bytes_nil :
    sha256Bytes [] =
      [227, 176, 196, 66, 152, 252, 28, 20,
       154, 251, 244, 200, 153, 111, 185, 36,
       39, 174, 65, 228, 100, 155, 147, 76,
       164, 149, 153, 27, 120, 82, 184, 85] := by
  decide

/-! Token authority: `internal/data/tokens.go`. -/

/-- Go `type Scope string` with the two declared constants. -/
abbrev Scope := String

/-- Go constant `Activation Scope = "activation"`. -/
def Activation : Scope := "activation"

/-- Go constant `Authentication Scope = "authentication"`. -/
def Authentication : Scope := "authentication"

/-- Go `Scope.Valid`: only the two declared scopes are valid. -/
def Scope.Valid (s : Scope) : Bool := s == Activation || s == Authentication

/-- Go `data.Token`.  `Plaintext` and `Hash` are byte lists; `Expiry` is a
timestamp in seconds. -/
structure Token where
  Plaintext : List Nat
  Hash : List Nat
  UserID : Int
  Expiry : ℚ
  Scope : Scope
deriving DecidableEq

/-- Go `generateToken` on the success path of `rand.Read`: the 16 random
bytes drawn from the CSPRNG are an explicit argument, `now` stands for
`time.Now()`.  The plaintext is the no-padding base32 encoding of the
random bytes and the hash is the SHA-256 digest of the plaintext. -/
def generateToken (userID : Int) (ttl : ℚ) (scope : Scope)
    (randomBytes : List Nat) (now : ℚ) : Token :=
  { UserID := userID
    Expiry := now + ttl
    Scope := scope
    Plaintext := base32EncodeNoPad randomBytes
    Hash := sha256Bytes (base32EncodeNoPad randomBytes) }

/-- Go `validator.Validator`: an error map keyed by field name.  Modelled
as an insertion-ordered association list; `AddError` keeps the first
message per key, as the Go map insert guarded by an existence check does. -/
structure Validator where
  Errors : List (String × String)
deriving DecidableEq

/-- Go `validator.New`: an empty error map. -/
def Validator.new : Validator := ⟨[]⟩

/-- Go `Validator.Valid`: true when the error map is empty. -/
def Validator.Valid (v : Validator) : Bool := v.Errors.isEmpty

/-- Go `Validator.AddError`: inserts unless the key is already present. -/
def Validator.AddError (v : Validator) (key message : String) : Validator :=
  if v.Errors.any (fun e => e.1 == key) then v
  else ⟨v.Errors ++ [(key, message)]⟩

/-- Go `Validator.Check`: records the error when `ok` is false. -/
def Validator.Check (v : Validator) (ok : Bool) (key message : String) :
    Validator :=
  if ok then v else v.AddError key message

/-- Go `data.ValidateTokenPlaintext`: the plaintext must be non-empty and
exactly 26 bytes long. -/
def ValidateTokenPlaintext (v : Validator) (plaintext : List Nat) :
    Validator :=
  (v.Check (plaintext != []) "token" "must be provided").Check
    (plaintext.length == 26) "token" "must be 26 bytes long"

/-- The boolean outcome of running `ValidateTokenPlaintext` on a fresh
validator and asking `Valid`, exactly as `cmd/api/middleware.go` and the
token handlers do. -/
def tokenPlaintextOK (plaintext : List Nat) : Bool :=
  (ValidateTokenPlaintext Validator.new plaintext).Valid

theorem tokenPlaintextOK_iff (p : List Nat) :
    tokenPlaintextOK p = true ↔ p ≠ [] ∧ p.length = 26 := by
  by_cases h1 : p = [] <;> by_cases h2 : p.length = 26 <;>
    simp [tokenPlaintextOK, ValidateTokenPlaintext, Validator.Check,
      Validator.AddError, Validator.new, Validator.Valid, h1, h2]

/-- Go `TokenModel.New`, with the two effectful calls it makes passed in as
outcomes: `generate` is the result of `generateToken` (which fails only if
the entropy source fails) and `insert` the result of `TokenModel.Insert`.
The source calls `m.Insert(token)` on its own line and discards the
returned error, which this embedding reproduces with a discarded `let`. -/
def TokenModelNew (generate : Except String Token)
    (insert : Token → Except String Unit) : Except String Token :=
  match generate with
  | .error e => .error e
  | .ok token =>
    let _ := insert token
    .ok token

/-! Guard chain: `cmd/api/middleware.go` and `internal/data/permissions.go`. -/

/-- Go `data.User` (`internal/data/users.go`): the password is stored as
its bcrypt hash (a byte list). -/
structure User where
  ID : Int
  CreatedAt : ℚ
  Name : String
  Email : String
  PasswordHash : List Nat
  Activated : Bool
  Version : Int
deriving DecidableEq

/-- Modelled from the spec: `data.AnonymousUser` and `User.IsAnonymous`
are declared in repository code that is not present under `src/` (only
their call sites are).  Per the spec, absence of any credential resolves
to a well-known anonymous principal, so the principal attached to a
request context is either that distinguished anonymous value or an
identified user. -/
inductive Principal where
  | anonymous
  | user (u : User)
deriving DecidableEq

/-- Go `user.IsAnonymous()`: whether the context principal is the
distinguished anonymous value. -/
def Principal.IsAnonymous : Principal → Bool
  | .anonymous => true
  | .user _ => false

/-- Go `user.Activated` read off the context principal; the anonymous
sentinel is a zero-value `User`, whose `Activated` field is false. -/
def Principal.Activated : Principal → Bool
  | .anonymous => false
  | .user u => u.Activated

/-- Go `user.ID` read off the context principal (zero for the anonymous
zero-value sentinel). -/
def Principal.ID : Principal → Int
  | .anonymous => 0
  | .user u => u.ID

/-- Go `data.PermissionCode`, a string code such as "movies:read". -/
abbrev PermissionCode := String

/-- Go `data.Permissions`, a slice of permission codes. -/
abbrev Permissions := List PermissionCode

/-- Go `Permissions.Includes` (`internal/data/permissions.go`): a linear
scan returning true on the first match. -/
def Permissions.Includes : Permissions → PermissionCode → Bool
  | [], _ => false
  | c :: rest, code => if c == code then true else Permissions.Includes rest code

/-- Errors surfaced by the data layer: `data.ErrRecordNotFound` or any
other database error (`internal/data` error variables). -/
inductive DbErr where
  | recordNotFound
  | other (msg : String)
deriving DecidableEq

/-- The terminal responses a guard stage can short-circuit with, plus the
result of forwarding to the wrapped handler.  `forwarded p` is the
stand-in result of the innermost handler used to observe invocation in
theorems; the response helpers are in `cmd/api/helper.go` (part of the
unnamed source files). -/
inductive Resp where
  | serverError
  | invalidAuthenticationToken
  | authenticationRequired
  | activationRequired
  | permissionRequired
  | rateLimitExceeded
  | forwarded (p : Principal)
deriving DecidableEq

/-- The HTTP status code each response helper sends. -/
def Resp.status : Resp → Nat
  | .serverError => 500
  | .invalidAuthenticationToken => 401
  | .authenticationRequired => 401
  | .activationRequired => 403
  | .permissionRequired => 403
  | .rateLimitExceeded => 429
  | .forwarded _ => 200

/-- Go `requireAuthenticatedUser` (`cmd/api/middleware.go:176`): rejects
the anonymous principal with a 401, then a non-activated principal with a
403, else forwards. -/
def requireAuthenticatedUser (next : Principal → Resp) (user : Principal) :
    Resp :=
  if user.IsAnonymous then .authenticationRequired
  else if !user.Activated then .activationRequired
  else next user

/-- Go `requireActivatedUser` (`cmd/api/middleware.go:203`): re-checks
activation, wrapped in `requireAuthenticatedUser`. -/
def requireActivatedUser (next : Principal → Resp) : Principal → Resp :=
  requireAuthenticatedUser fun user =>
    if !user.Activated then .activationRequired
    else next user

/-- Go `requirePermission` (`cmd/api/middleware.go:229`): loads the
permission codes of the context user (`perms` stands for
`app.models.Permissions.GetAllForUser`) and rejects with a 403 when the
required code is absent; wrapped in `requireActivatedUser`. -/
def requirePermission (perms : Int → Except String Permissions)
    (permission : PermissionCode) (next : Principal → Resp) :
    Principal → Resp :=
  requireActivatedUser fun user =>
    match perms user.ID with
    | .error _ => .serverError
    | .ok permissions =>
      if !(Permissions.Includes permissions permission) then .permissionRequired
      else next user

/-- A persisted token row (the `tokens` table): only the hash is stored. -/
structure TokenRow where
  Hash : List Nat
  UserID : Int
  Expiry : ℚ
  Scope : Scope
deriving DecidableEq

/-- The relational store visible to the authentication middleware. -/
structure Store where
  users : List User
  tokens : List TokenRow
deriving DecidableEq

/-- Modelled from the spec: `UserModel.GetForToken` is declared in
repository code that is not present under `src/` (only its call sites
are).  Per the spec, `findByToken(scope, plaintext)` hashes the supplied
plaintext, looks up a live (non-expired) token of the matching scope
whose hash matches, and returns the owning principal; expired tokens are
treated identically to absent ones (`recordNotFound`). -/
def GetForToken (store : Store) (now : ℚ) (scope : Scope)
    (plaintext : List Nat) : Except DbErr User :=
  let hash := sha256Bytes plaintext
  match store.tokens.find? fun t =>
      t.Scope == scope && t.Hash == hash && decide (now < t.Expiry) with
  | none => .error .recordNotFound
  | some t =>
    match store.users.find? (fun u => u.ID == t.UserID) with
    | none => .error .recordNotFound
    | some u => .ok u

/-- Go `strings.Split(s, sep)` for a one-byte separator, on byte lists. -/
def splitOnByte (sep : Nat) (s : List Nat) : List (List Nat) :=
  s.foldr
    (fun b acc =>
      if b == sep then [] :: acc
      else
        match acc with
        | h :: t => (b :: h) :: t
        | [] => [[b]])
    [[]]

/-- The bytes of the string "Bearer". -/
def bearerBytes : List Nat := [66, 101, 97, 114, 101, 114]

/-- Go `authenticate` (`cmd/api/middleware.go:120`): an empty
Authorization header attaches the anonymous principal and forwards; a
header not of the form "Bearer token" with a 26-byte token is a terminal
401; an unresolvable token is a terminal 401 (`recordNotFound`) or a 500
(any other lookup error); a resolved user is attached and forwarded. -/
def authenticate (store : Store) (now : ℚ) (next : Principal → Resp)
    (authorizationHeader : List Nat) : Resp :=
  if authorizationHeader == [] then next .anonymous
  else
    match splitOnByte 32 authorizationHeader with
    | [p0, token] =>
      if p0 != bearerBytes then .invalidAuthenticationToken
      else if !tokenPlaintextOK token then .invalidAuthenticationToken
      else
        match GetForToken store now Authentication token with
        | .error .recordNotFound => .invalidAuthenticationToken
        | .error (.other _) => .serverError
        | .ok u => next (.user u)
    | _ => .invalidAuthenticationToken

/-! Rate limiter: `cmd/api/middleware.go:43` (`rateLimit`), built on the
token bucket of golang.org/x/time/rate.  Time is rational seconds. -/

/-- A golang.org/x/time/rate `Limiter`: sustained rate `limit` in tokens
per second, capacity `burst`, current token count and the time of the
last state change.  `x/time/rate` stores burst as an int; it is kept
rational here and instantiated with naturals in the theorems. -/
structure Limiter where
  limit : ℚ
  burst : ℚ
  tokens : ℚ
  last : ℚ
deriving DecidableEq

/-- Go `rate.NewLimiter(r, b)` as observed from its first use at time
`t`: the library lazily starts from a zero state whose first `advance`
refills the bucket to full, so the bucket is modelled as created full at
the creation instant. -/
def Limiter.new (r b t : ℚ) : Limiter :=
  { limit := r, burst := b, tokens := b, last := t }

/-- Go `limiter.Allow()` at time `now` (`x/time/rate` `AllowN(now, 1)`):
refill by the elapsed time capped at the burst, admit and consume one
token when a full token is available (and 1 does not exceed the burst),
otherwise reject leaving the limiter state unchanged. -/
def Limiter.allow (l : Limiter) (now : ℚ) : Bool × Limiter :=
  let tokens := min l.burst (l.tokens + (now - l.last) * l.limit)
  if 1 ≤ l.burst ∧ 1 ≤ tokens then
    (true, { l with tokens := tokens - 1, last := now })
  else (false, l)

/-- One entry of the `clients` map: Go `type client struct` in
`rateLimit`. -/
structure ClientEntry where
  limiter : Limiter
  lastSeen : ℚ
deriving DecidableEq

/-- Go `app.config.limiter`: enabled flag, sustained rate and burst. -/
structure LimiterConfig where
  enabled : Bool
  rps : ℚ
  burst : ℚ
deriving DecidableEq

/-- In-place update of the clients map, appending when the key is new
(Go map assignment `clients[ip] = ...`). -/
def setClient (m : List (String × ClientEntry)) (ip : String)
    (c : ClientEntry) : List (String × ClientEntry) :=
  match m with
  | [] => [(ip, c)]
  | (k, v) :: rest =>
    if k == ip then (k, c) :: rest else (k, v) :: setClient rest ip c

/-- The outcome of the `rateLimit` middleware for one request: forwarded
to the next handler, or short-circuited with a status and message
(`rateLimitExceededReponse` sends 429 "rate limit exceeded"). -/
inductive RlOutcome where
  | forwarded
  | rejected (status : Nat) (message : String)
deriving DecidableEq

/-- One request through Go `rateLimit` (`cmd/api/middleware.go:73`): when
disabled, forward with no bookkeeping; otherwise look up or lazily create
the client entry for the requesting IP, stamp `lastSeen := now`, consume
from its bucket, and either forward or emit the 429 throttling response.
The `net.SplitHostPort` error path (malformed remote address) is outside
this model: `ip` is the already-extracted client IP. -/
def rateLimitStep (cfg : LimiterConfig) (clients : List (String × ClientEntry))
    (ip : String) (now : ℚ) : RlOutcome × List (String × ClientEntry) :=
  if !cfg.enabled then (.forwarded, clients)
  else
    let entry :=
      match List.lookup ip clients with
      | some c => c
      | none => { limiter := Limiter.new cfg.rps cfg.burst now, lastSeen := now }
    let (allowed, lim) := entry.limiter.allow now
    let clients := setClient clients ip { limiter := lim, lastSeen := now }
    if !allowed then (.rejected 429 "rate limit exceeded", clients)
    else (.forwarded, clients)

/-- A sequence of requests (IP, arrival time) through `rateLimit`. -/
def runRateLimit (cfg : LimiterConfig) :
    List (String × ℚ) → List (String × ClientEntry) →
      List RlOutcome × List (String × ClientEntry)
  | [], clients => ([], clients)
  | (ip, t) :: reqs, clients =>
    let step := rateLimitStep cfg clients ip t
    let rest := runRateLimit cfg reqs step.2
    (step.1 :: rest.1, rest.2)

/-- One pass of the background eviction goroutine at time `now`
(`cmd/api/middleware.go:58`): every client whose `lastSeen` is more than
three minutes (180 seconds) old is deleted from the map. -/
def evictScan (now : ℚ) (clients : List (String × ClientEntry)) :
    List (String × ClientEntry) :=
  clients.filter fun c => !(decide (now - c.2.lastSeen > 180))

/-- An event visible to the rate limiter component: an admitted request
from an IP or a pass of the eviction scan. -/
inductive RlEvent where
  | request (ip : String) (t : ℚ)
  | scan (t : ℚ)
deriving DecidableEq

/-- State change of the clients map for one event. -/
def processEvent (cfg : LimiterConfig)
    (clients : List (String × ClientEntry)) :
    RlEvent → List (String × ClientEntry)
  | .request ip t => (rateLimitStep cfg clients ip t).2
  | .scan t => evictScan t clients

/-- The clients map after a sequence of events. -/
def processEvents (cfg : LimiterConfig) (events : List RlEvent)
    (clients : List (String × ClientEntry)) : List (String × ClientEntry) :=
  events.foldl (processEvent cfg) clients

/-! Optimistic concurrency protocol: `MovieModel.Update` and
`MovieModel.Get` from the current movie-model snapshot in
`internal/data/filters.go`, and `UserModel.Update` from
`internal/data/users.go`.  The conditional UPDATE each method sends is
kept as its literal query text; a minimal model of the database checks
that the SET clause of that text is well-formed (every item is a
`column = expression` assignment) before giving the statement its
conditional-update semantics, exactly as a SQL engine rejects a
malformed statement with a syntax error and executes nothing. -/

/-- Go `data.Movie` (`internal/data/filters.go`). -/
structure Movie where
  ID : Int
  CreatedAt : ℚ
  Title : String
  Year : Int
  Runtime : Int
  Genres : List String
  Version : Int
deriving DecidableEq

/-- The query text of `MovieModel.Update`, verbatim from
`internal/data/filters.go:281`. -/
def moviesUpdateQuery : String :=
  "\n\t\tUPDATE movies\n\t\tSET title = $1, year = $2, runtime = $3, genres = $4, version = version + 1\n\t\tWHERE id = $5 AND version = $6\n\t\tRETURNING version"

/-- The query text of `UserModel.Update`, verbatim from
`internal/data/users.go:117`. -/
def usersUpdateQuery : String :=
  "\n\t\tUPDATE users\n\t\tSET name = $1, email $2, password_hash $3, \n\t\t\t  activated $4, version = version + 1\n\t\tWHERE id = $5 and version = $6\n\t\tRETURNING version"

/-- The suffix of `s` after the first occurrence of `pat` ([] when `pat`
does not occur). -/
def dropAfterSeq (pat : List Char) : List Char → List Char
  | [] => []
  | c :: rest =>
    if (c :: rest).take pat.length == pat then (c :: rest).drop pat.length
    else dropAfterSeq pat rest

/-- The prefix of `s` before the first occurrence of `pat`. -/
def takeBeforeSeq (pat : List Char) : List Char → List Char
  | [] => []
  | c :: rest =>
    if (c :: rest).take pat.length == pat then []
    else c :: takeBeforeSeq pat rest

/-- Splitting a character list at every occurrence of `sep`. -/
def splitOnChar (sep : Char) (s : List Char) : List (List Char) :=
  s.foldr
    (fun c acc =>
      if c == sep then [] :: acc
      else
        match acc with
        | h :: t => (c :: h) :: t
        | [] => [[c]])
    [[]]

/-- The comma-separated items of the SET clause of an UPDATE statement:
what stands between `SET ` and `WHERE`, split at commas. -/
def sqlSetItems (q : String) : List (List Char) :=
  splitOnChar ',' (takeBeforeSeq "WHERE".data (dropAfterSeq "SET ".data q.data))

/-- Whether every SET item is an assignment (contains an `=`), the part
of SQL grammar on which the two UPDATE statements above differ. -/
def sqlSetWellFormed (q : String) : Bool :=
  (sqlSetItems q).all fun item => item.contains '='

/-- Outcome of executing a conditional UPDATE through
`QueryRowContext(...).Scan`: a returned value, `sql.ErrNoRows` when no
row matched, a syntax error when the database rejects the statement, or
a unique-constraint violation. -/
inductive SqlOutcome (α : Type) where
  | rows (v : α)
  | noRows
  | syntaxError
  | uniqueViolation
deriving DecidableEq

/-- The SET clause of `moviesUpdateQuery` applied to a matched row. -/
def applyMovieSet (m : Movie) (row : Movie) : Movie :=
  { row with
    Title := m.Title, Year := m.Year, Runtime := m.Runtime,
    Genres := m.Genres, Version := row.Version + 1 }

/-- Execution of `moviesUpdateQuery` against the movies table: rows
matching `id = $5 AND version = $6` are updated with the SET clause and
the new version is returned; no matching row yields `sql.ErrNoRows`. -/
def dbUpdateMovies (db : List Movie) (m : Movie) :
    List Movie × SqlOutcome Int :=
  if sqlSetWellFormed moviesUpdateQuery = false then (db, .syntaxError)
  else if db.any (fun row => row.ID == m.ID && row.Version == m.Version) then
    (db.map fun row =>
      if row.ID == m.ID && row.Version == m.Version then applyMovieSet m row
      else row,
     .rows (m.Version + 1))
  else (db, .noRows)

/-- The SET clause of `usersUpdateQuery` applied to a matched row, were
the statement ever to execute. -/
def applyUserSet (u : User) (row : User) : User :=
  { row with
    Name := u.Name, Email := u.Email, PasswordHash := u.PasswordHash,
    Activated := u.Activated, Version := row.Version + 1 }

/-- Execution of `usersUpdateQuery` against the users table, including
the unique-email constraint of the `users` table. -/
def dbUpdateUsers (db : List User) (u : User) :
    List User × SqlOutcome Int :=
  if sqlSetWellFormed usersUpdateQuery = false then (db, .syntaxError)
  else if db.any (fun row => row.ID == u.ID && row.Version == u.Version) then
    if db.any (fun row => row.Email == u.Email && row.ID != u.ID) then
      (db, .uniqueViolation)
    else
      (db.map fun row =>
        if row.ID == u.ID && row.Version == u.Version then applyUserSet u row
        else row,
       .rows (u.Version + 1))
  else (db, .noRows)

/-- Errors of the data-layer update methods: `data.ErrEditConflict`,
`data.ErrDuplicateEmail`, or any other database error passed through. -/
inductive UpdateErr where
  | editConflict
  | duplicateEmail
  | generic (msg : String)
deriving DecidableEq

/-- Go `MovieModel.Update` (`internal/data/filters.go:280`): runs the
conditional UPDATE; `sql.ErrNoRows` is mapped to `ErrEditConflict` (the
caller has already checked existence), any other error is returned as
is, and on success the returned version is scanned into the movie
struct.  The result is (table after the call, movie struct after the
call, returned error). -/
def MovieModel.Update (db : List Movie) (movie : Movie) :
    List Movie × Movie × Except UpdateErr Unit :=
  match dbUpdateMovies db movie with
  | (db2, .rows v) => (db2, { movie with Version := v }, .ok ())
  | (db2, .noRows) => (db2, movie, .error .editConflict)
  | (db2, .syntaxError) => (db2, movie, .error (.generic "pq: syntax error"))
  | (db2, .uniqueViolation) =>
    (db2, movie, .error (.generic "pq: unique violation"))

/-- Go `UserModel.Update` (`internal/data/users.go:116`): runs the
conditional UPDATE; `sql.ErrNoRows` maps to `ErrEditConflict`, the
duplicate-email constraint message maps to `ErrDuplicateEmail`, any
other error (including a statement the database rejects) is returned as
is. -/
def UserModel.Update (db : List User) (user : User) :
    List User × User × Except UpdateErr Unit :=
  match dbUpdateUsers db user with
  | (db2, .rows v) => (db2, { user with Version := v }, .ok ())
  | (db2, .noRows) => (db2, user, .error .editConflict)
  | (db2, .uniqueViolation) => (db2, user, .error .duplicateEmail)
  | (db2, .syntaxError) => (db2, user, .error (.generic "pq: syntax error"))

/-- Go `MovieModel.Get` (`internal/data/filters.go:237`): an id below 1
short-circuits to `ErrRecordNotFound` without touching the database;
otherwise the movie is looked up by id.  The boolean records whether a
query was issued to the store. -/
def MovieModel.Get (db : List Movie) (id : Int) :
    Bool × Except DbErr Movie :=
  if id < 1 then (false, .error .recordNotFound)
  else
    match db.find? (fun row => row.ID == id) with
    | none => (true, .error .recordNotFound)
    | some movie => (true, .ok movie)

/-! Authentication-token issue handler: `createAuthenticationToken` in the
tokens handler file (src/unnamed/part_012:175) and `UserModel.GetByEmail`
(`internal/data/users.go:72`). -/

/-- Go `UserModel.GetByEmail`: lookup by unique email;
`sql.ErrNoRows` maps to `ErrRecordNotFound`. -/
def UserModel.GetByEmail (db : List User) (email : String) :
    Except DbErr User :=
  match db.find? (fun u => u.Email == email) with
  | none => .error .recordNotFound
  | some u => .ok u

/-- Outcome of `bcrypt.CompareHashAndPassword` (external library): a
match, the mismatch sentinel error, or any other failure. -/
inductive BcryptResult where
  | ok
  | mismatch
  | failure (msg : String)
deriving DecidableEq

/-- Go `password.Matches` (`internal/data/users.go:180`): the mismatch
sentinel becomes `(false, nil)`, any other bcrypt failure is returned as
an error. -/
def passwordMatches : BcryptResult → Except String Bool
  | .ok => .ok true
  | .mismatch => .ok false
  | .failure e => .error e

/-- The responses `createAuthenticationToken` can produce. -/
inductive AuthTokenResp where
  | badRequest (msg : String)
  | failedValidation
  | invalidCredentials
  | serverError
  | created (token : Token)
deriving DecidableEq

/-- HTTP status of each response (`cmd/api/helper.go` response helpers;
`invalidCredentialsResponse` sends 401 "invalid authentication
credentials"). -/
def AuthTokenResp.status : AuthTokenResp → Nat
  | .badRequest _ => 400
  | .failedValidation => 422
  | .invalidCredentials => 401
  | .serverError => 500
  | .created _ => 201

/-- The body message of the 401 `invalidCredentialsResponse`. -/
def invalidCredentialsMessage : String := "invalid authentication credentials"

/-- Go `createAuthenticationToken` (src/unnamed/part_012:175).
`readJSONResult` is the outcome of `readJSON` on the request body (email
and password); `credentialsValid` stands for the combined
`ValidateEmail`/`ValidatePasswordPlaintext` verdict (the email check runs
a regexp engine external to the repository); `bcryptCompare` is the
external bcrypt comparison keyed by stored hash and supplied password;
`newToken` is `app.models.Tokens.New`.  The final `writeJSON` of the 201
response is taken to succeed. -/
def createAuthenticationToken (db : List User)
    (bcryptCompare : List Nat → String → BcryptResult)
    (newToken : Int → Except String Token)
    (credentialsValid : String → String → Bool)
    (readJSONResult : Except String (String × String)) : AuthTokenResp :=
  match readJSONResult with
  | .error e => .badRequest e
  | .ok (email, password) =>
    if !credentialsValid email password then .failedValidation
    else
      match UserModel.GetByEmail db email with
      | .error .recordNotFound => .invalidCredentials
      | .error (.other _) => .serverError
      | .ok user =>
        match passwordMatches (bcryptCompare user.PasswordHash password) with
        | .error _ => .serverError
        | .ok false => .invalidCredentials
        | .ok true =>
          match newToken user.ID with
          | .error _ => .serverError
          | .ok token => .created token

/-! Claim theorems. -/

/-- C5: every token produced by `generateToken` has as plaintext the
no-padding base32 encoding of the 16 random bytes, exactly 26 bytes
long; its hash is the SHA-256 digest of the plaintext; validating the
plaintext shape succeeds, and validating any truncation of it fails. -/
theorem generateToken_roundtrip (userID : Int) (ttl : ℚ) (scope : Scope)
    (now : ℚ) (randomBytes : List Nat)
    (hlen : randomBytes.length = 16) :
    (generateToken userID ttl scope randomBytes now).Plaintext
        = base32EncodeNoPad randomBytes
    ∧ (generateToken userID ttl scope randomBytes now).Plaintext.length = 26
    ∧ (generateToken userID ttl scope randomBytes now).Hash
        = sha256Bytes (generateToken userID ttl scope randomBytes now).Plaintext
    ∧ tokenPlaintextOK (generateToken userID ttl scope randomBytes now).Plaintext
        = true
    ∧ ∀ k < 26, tokenPlaintextOK
        ((generateToken userID ttl scope randomBytes now).Plaintext.take k)
        = false := by
  have hplen : (base32EncodeNoPad randomBytes).length = 26 := by
    rw [base32EncodeNoPad_length, hlen]
  refine ⟨rfl, hplen, rfl, ?_, ?_⟩
  · rw [tokenPlaintextOK_iff]
    refine ⟨fun hnil => ?_, hplen⟩
    have hnil2 : base32EncodeNoPad randomBytes = [] := hnil
    rw [hnil2] at hplen
    simp at hplen
  · intro k hk
    have htake : ((generateToken userID ttl scope randomBytes now).Plaintext.take
        k).length = k := by
      show ((base32EncodeNoPad randomBytes).take k).length = k
      rw [List.length_take, hplen]
      omega
    cases h : tokenPlaintextOK ((generateToken userID ttl scope
        randomBytes now).Plaintext.take k) with
    | false => rfl
    | true =>
      have := ((tokenPlaintextOK_iff _).mp h).2
      rw [htake] at this
      omega

/-- A concrete 16-byte draw from the CSPRNG. -/
def sixteenZeroBytes : List Nat := List.replicate 16 0

/-- C5 witness: the round-trip at a concrete 16-byte input. -/
theorem generateToken_roundtrip_witness :
    (generateToken 1 86400 Authentication sixteenZeroBytes 0).Plaintext.length = 26
    ∧ tokenPlaintextOK
        (generateToken 1 86400 Authentication sixteenZeroBytes 0).Plaintext = true
    ∧ tokenPlaintextOK
        ((generateToken 1 86400 Authentication sixteenZeroBytes 0).Plaintext.take 25)
        = false :=
  have h := generateToken_roundtrip 1 86400 Authentication 0 sixteenZeroBytes
    (by decide)
  ⟨h.2.1, h.2.2.2.1, h.2.2.2.2 25 (by omega)⟩

/-- A concrete token, as issued for user 1 with a 24-hour TTL. -/
def exampleToken : Token := generateToken 1 86400 Authentication sixteenZeroBytes 0

/-- C8: `TokenModel.New` discards the error of `m.Insert(token)`: when
generation succeeds but the insert fails with a storage error, `New`
still returns the token with a nil error, so the storage failure is
silently swallowed (the generation-failure half of the claim does hold). -/
theorem tokenModelNew_swallows_insert_error :
    TokenModelNew (.ok exampleToken) (fun _ => .error "pq: connection refused")
        = .ok exampleToken
    ∧ TokenModelNew (.error "entropy source exhausted") (fun _ => .ok ())
        = .error "entropy source exhausted" :=
  ⟨rfl, rfl⟩

/-- C3: the capability-gated chain `requirePermission` rejects the
anonymous principal with the 401 authentication-required response, a
non-activated identified principal with the 403 activation-required
response, and an activated principal lacking the required code with the
403 permission-required response; only an identified, activated
principal holding the code reaches the wrapped handler.  Each rejection
is independent of the wrapped handler (`∀ next`), so no rejection ever
invokes it. -/
theorem requirePermission_state_machine
    (perms : Int → Except String Permissions) (permission : PermissionCode)
    (p : Principal) :
    (p.IsAnonymous = true →
      ∀ next, requirePermission perms permission next p
        = .authenticationRequired)
    ∧ (p.IsAnonymous = false → p.Activated = false →
      ∀ next, requirePermission perms permission next p = .activationRequired)
    ∧ (∀ ps, p.IsAnonymous = false → p.Activated = true →
        perms p.ID = .ok ps → Permissions.Includes ps permission = false →
        ∀ next, requirePermission perms permission next p = .permissionRequired)
    ∧ (∀ ps, p.IsAnonymous = false → p.Activated = true →
        perms p.ID = .ok ps → Permissions.Includes ps permission = true →
        ∀ next, requirePermission perms permission next p = next p)
    ∧ Resp.authenticationRequired.status = 401
    ∧ Resp.activationRequired.status = 403
    ∧ Resp.permissionRequired.status = 403 := by
  cases p with
  | anonymous =>
    refine ⟨fun _ next => rfl, by simp [Principal.IsAnonymous], ?_, ?_, rfl, rfl, rfl⟩
      <;> intro ps h <;> simp [Principal.IsAnonymous] at h
  | user u =>
    cases hact : u.Activated with
    | false =>
      refine ⟨by simp [Principal.IsAnonymous], fun _ _ next => ?_, ?_, ?_,
        rfl, rfl, rfl⟩
      · simp [requirePermission, requireActivatedUser, requireAuthenticatedUser,
          Principal.IsAnonymous, Principal.Activated, hact]
      all_goals intro ps _ h; simp [Principal.Activated, hact] at h
    | true =>
      refine ⟨by simp [Principal.IsAnonymous], fun _ h => ?_, ?_, ?_,
        rfl, rfl, rfl⟩
      · simp [Principal.Activated, hact] at h
      all_goals
        intro ps _ _ hperm hinc next
        have hperm2 : perms u.ID = Except.ok ps := hperm
        simp [requirePermission, requireActivatedUser, requireAuthenticatedUser,
          Principal.IsAnonymous, Principal.Activated, Principal.ID, hact,
          hperm2, hinc]

/-- C4: `authenticate` attaches the anonymous principal and forwards when
the Authorization header is absent; a present header that does not split
as "Bearer" plus a 26-byte token is a terminal 401; a well-formed token
that resolves to no user (`recordNotFound`, which per the spec-modelled
`GetForToken` covers expired tokens) is a terminal 401; a resolved user
is attached and the next handler invoked. -/
theorem authenticate_resolution (store : Store) (now : ℚ)
    (header : List Nat) :
    (header = [] →
      ∀ next, authenticate store now next header = next .anonymous)
    ∧ (header ≠ [] → (∀ p0 token, splitOnByte 32 header ≠ [p0, token]) →
      ∀ next, authenticate store now next header = .invalidAuthenticationToken)
    ∧ (header ≠ [] → ∀ p0 token, splitOnByte 32 header = [p0, token] →
      p0 ≠ bearerBytes →
      ∀ next, authenticate store now next header = .invalidAuthenticationToken)
    ∧ (header ≠ [] → ∀ token, splitOnByte 32 header = [bearerBytes, token] →
      tokenPlaintextOK token = false →
      ∀ next, authenticate store now next header = .invalidAuthenticationToken)
    ∧ (header ≠ [] → ∀ token, splitOnByte 32 header = [bearerBytes, token] →
      tokenPlaintextOK token = true →
      GetForToken store now Authentication token = .error .recordNotFound →
      ∀ next, authenticate store now next header = .invalidAuthenticationToken)
    ∧ (∀ token, (∀ t ∈ store.tokens, t.Scope = Authentication →
        t.Hash = sha256Bytes token → t.Expiry ≤ now) →
      GetForToken store now Authentication token = .error .recordNotFound)
    ∧ (header ≠ [] → ∀ token u, splitOnByte 32 header = [bearerBytes, token] →
      tokenPlaintextOK token = true →
      GetForToken store now Authentication token = .ok u →
      ∀ next, authenticate store now next header = next (.user u))
    ∧ Resp.invalidAuthenticationToken.status = 401 := by
  have hne : header ≠ [] → (header == []) = false := by
    intro h; simpa using h
  refine ⟨?_, ?_, ?_, ?_, ?_, ?_, ?_, rfl⟩
  · intro h next; simp [authenticate, h]
  · intro h hsplit next
    rcases hs : splitOnByte 32 header with _ | ⟨a, _ | ⟨b, _ | ⟨c, rest⟩⟩⟩
    · simp [authenticate, hne h, hs]
    · simp [authenticate, hne h, hs]
    · exact absurd hs (hsplit a b)
    · simp [authenticate, hne h, hs]
  · intro h p0 token hs hp0 next
    have hp0b : (p0 != bearerBytes) = true := by simpa using hp0
    simp [authenticate, hne h, hs, hp0b]
  · intro h token hs hbad next
    simp [authenticate, hne h, hs, hbad]
  · intro h token hs hok hnf next
    simp [authenticate, hne h, hs, hok, hnf]
  · intro token hexp
    have hfind : store.tokens.find? (fun t =>
        t.Scope == Authentication && t.Hash == sha256Bytes token
          && decide (now < t.Expiry)) = none := by
      rw [List.find?_eq_none]
      intro t ht
      simp only [Bool.and_eq_true, beq_iff_eq, decide_eq_true_eq]
      rintro ⟨⟨hsc, hh⟩, hlt⟩
      exact absurd hlt (not_lt.mpr (hexp t ht hsc hh))
    simp [GetForToken, hfind]
  · intro h token u hs hok hfound next
    simp [authenticate, hne h, hs, hok, hfound]

/-- C10: `MovieModel.Get` returns `ErrRecordNotFound` without issuing a
query for every id below 1, and consults the store exactly when the id
is at least 1. -/
theorem movieGet_guards_id (db : List Movie) (id : Int) :
    (id < 1 → MovieModel.Get db id = (false, .error .recordNotFound))
    ∧ (1 ≤ id → (MovieModel.Get db id).1 = true) := by
  constructor
  · intro h
    simp [MovieModel.Get, h]
  · intro h
    have hnot : ¬ id < 1 := not_lt.mpr h
    simp only [MovieModel.Get, hnot, if_false]
    cases db.find? (fun row => row.ID == id) <;> rfl

/-- A stored movie at version 4 (a concurrent writer already updated it). -/
def conflictMovieRow : Movie :=
  { ID := 1, CreatedAt := 0, Title := "Casablanca", Year := 1942,
    Runtime := 102, Genres := ["drama"], Version := 4 }

/-- The same movie as read by the slow caller at version 3. -/
def heldMovie : Movie :=
  { ID := 1, CreatedAt := 0, Title := "Casablanca", Year := 1942,
    Runtime := 102, Genres := ["drama", "romance"], Version := 3 }

/-- A stored user at version 4 (a concurrent writer already updated it). -/
def conflictUserRow : User :=
  { ID := 1, CreatedAt := 0, Name := "Alice", Email := "alice@example.com",
    PasswordHash := [36, 50, 97, 36], Activated := false, Version := 4 }

/-- The same user as read by the slow caller at version 3. -/
def heldUser : User :=
  { ID := 1, CreatedAt := 0, Name := "Alice", Email := "alice@example.com",
    PasswordHash := [36, 50, 97, 36], Activated := true, Version := 3 }

/-- C1: at a held version 3 against a persisted version 4, the movie
update reports `ErrEditConflict` and mutates no row as claimed, but the
user update cannot: its UPDATE statement text is malformed (the SET
items `email $2`, `password_hash $3` and `activated $4` lack an `=`), so
the database rejects the statement and `UserModel.Update` surfaces that
generic error, never `ErrEditConflict`.  No row is mutated either way. -/
theorem userUpdate_conflict_not_reported :
    MovieModel.Update [conflictMovieRow] heldMovie
      = ([conflictMovieRow], heldMovie, .error .editConflict)
    ∧ sqlSetWellFormed usersUpdateQuery = false
    ∧ UserModel.Update [conflictUserRow] heldUser
      = ([conflictUserRow], heldUser, .error (.generic "pq: syntax error"))
    ∧ (Except.error (UpdateErr.generic "pq: syntax error")
        : Except UpdateErr Unit) ≠ .error .editConflict := by
  refine ⟨by decide, by decide, by decide, by decide⟩

/-- C2: on every successful `MovieModel.Update`, the version written back
into the movie struct is the held version plus exactly 1 and a row with
the movie id at that new version is persisted; the same conditional holds
for `UserModel.Update` (vacuously so: its malformed UPDATE statement, see
C1, means no user update ever succeeds). -/
theorem update_increments_version (db : List Movie) (m : Movie)
    (db2 : List Movie) (m2 : Movie)
    (h : MovieModel.Update db m = (db2, m2, .ok ())) :
    (m2.Version = m.Version + 1
      ∧ ∃ row ∈ db2, row.ID = m.ID ∧ row.Version = m.Version + 1)
    ∧ ∀ (du : List User) (u : User) (du2 : List User) (u2 : User),
        UserModel.Update du u = (du2, u2, .ok ()) →
        u2.Version = u.Version + 1
          ∧ ∃ row ∈ du2, row.ID = u.ID ∧ row.Version = u.Version + 1 := by
  constructor
  · have hwf : sqlSetWellFormed moviesUpdateQuery = true := by decide
    cases hany : db.any (fun row => row.ID == m.ID && row.Version == m.Version)
      with
    | false =>
      have hdb : dbUpdateMovies db m = (db, .noRows) := by
        simp [dbUpdateMovies, hwf, hany]
      simp [MovieModel.Update, hdb] at h
    | true =>
      have hdb : dbUpdateMovies db m =
          (db.map fun row =>
            if row.ID == m.ID && row.Version == m.Version then
              applyMovieSet m row
            else row,
           .rows (m.Version + 1)) := by
        simp [dbUpdateMovies, hwf, hany]
      rw [MovieModel.Update, hdb] at h
      simp only [Prod.mk.injEq] at h
      obtain ⟨hdb2, hm2, -⟩ := h
      constructor
      · rw [← hm2]
      · obtain ⟨r, hr, hpred⟩ := List.any_eq_true.mp hany
        have hid : r.ID = m.ID := by
          have := (Bool.and_eq_true ..).mp hpred
          exact beq_iff_eq.mp this.1
        have hver : r.Version = m.Version := by
          have := (Bool.and_eq_true ..).mp hpred
          exact beq_iff_eq.mp this.2
        refine ⟨applyMovieSet m r, ?_, by simp [applyMovieSet, hid],
          by simp [applyMovieSet, hver]⟩
        rw [← hdb2]
        exact List.mem_map.mpr ⟨r, hr, by simp [hpred]⟩
  · intro du u du2 u2 h2
    have hwf : sqlSetWellFormed usersUpdateQuery = false := by decide
    simp [UserModel.Update, dbUpdateUsers, hwf] at h2

/-- A stored movie at version 3, matching the held struct. -/
def freshMovieDb : List Movie :=
  [{ ID := 1, CreatedAt := 0, Title := "Casablanca", Year := 1942,
     Runtime := 102, Genres := ["drama"], Version := 3 }]

/-- The table after the successful update. -/
def freshMovieDbAfter : List Movie :=
  [{ ID := 1, CreatedAt := 0, Title := "Casablanca", Year := 1942,
     Runtime := 102, Genres := ["drama", "romance"], Version := 4 }]

/-- The movie struct after the successful update. -/
def heldMovieAfter : Movie :=
  { ID := 1, CreatedAt := 0, Title := "Casablanca", Year := 1942,
    Runtime := 102, Genres := ["drama", "romance"], Version := 4 }

/-- C2 witness: a concrete successful movie update at held version 3
yields version 4, both in the struct and in the stored row. -/
theorem update_increments_version_witness :
    (heldMovieAfter.Version = heldMovie.Version + 1
      ∧ ∃ row ∈ freshMovieDbAfter, row.ID = heldMovie.ID
          ∧ row.Version = heldMovie.Version + 1)
    ∧ ∀ (du : List User) (u : User) (du2 : List User) (u2 : User),
        UserModel.Update du u = (du2, u2, .ok ()) →
        u2.Version = u.Version + 1
          ∧ ∃ row ∈ du2, row.ID = u.ID ∧ row.Version = u.Version + 1 :=
  update_increments_version freshMovieDb heldMovie freshMovieDbAfter
    heldMovieAfter (by decide)

/-- C7: with a well-formed email and password, an unknown email and a
known email with a non-matching password produce the same generic 401
invalid-credentials response, so the two failures are indistinguishable
to the caller. -/
theorem createAuthenticationToken_indistinguishable
    (db1 db2 : List User) (bc1 bc2 : List Nat → String → BcryptResult)
    (nt1 nt2 : Int → Except String Token)
    (cv : String → String → Bool) (email password : String) (user : User)
    (hcv : cv email password = true)
    (h1 : UserModel.GetByEmail db1 email = .error .recordNotFound)
    (h2 : UserModel.GetByEmail db2 email = .ok user)
    (h3 : bc2 user.PasswordHash password = .mismatch) :
    createAuthenticationToken db1 bc1 nt1 cv (.ok (email, password))
        = .invalidCredentials
    ∧ createAuthenticationToken db2 bc2 nt2 cv (.ok (email, password))
        = .invalidCredentials
    ∧ createAuthenticationToken db1 bc1 nt1 cv (.ok (email, password))
        = createAuthenticationToken db2 bc2 nt2 cv (.ok (email, password))
    ∧ AuthTokenResp.invalidCredentials.status = 401 := by
  have ha : createAuthenticationToken db1 bc1 nt1 cv (.ok (email, password))
      = .invalidCredentials := by
    simp [createAuthenticationToken, hcv, h1]
  have hb : createAuthenticationToken db2 bc2 nt2 cv (.ok (email, password))
      = .invalidCredentials := by
    simp [createAuthenticationToken, hcv, h2, h3, passwordMatches]
  exact ⟨ha, hb, ha.trans hb.symm, rfl⟩

/-- A registered user for the C7 witness. -/
def aliceUser : User :=
  { ID := 7, CreatedAt := 0, Name := "Alice", Email := "alice@example.com",
    PasswordHash := [36, 50, 97, 36], Activated := true, Version := 1 }

/-- C7 witness: the indistinguishability at a concrete email and
password, with an empty store versus a store holding the user. -/
theorem createAuthenticationToken_indistinguishable_witness :
    createAuthenticationToken [] (fun _ _ => .mismatch) (fun _ => .error "x")
        (fun _ _ => true) (.ok ("alice@example.com", "pa55word"))
        = .invalidCredentials
    ∧ createAuthenticationToken [aliceUser] (fun _ _ => .mismatch)
        (fun _ => .error "x") (fun _ _ => true)
        (.ok ("alice@example.com", "pa55word"))
        = .invalidCredentials
    ∧ createAuthenticationToken [] (fun _ _ => .mismatch) (fun _ => .error "x")
        (fun _ _ => true) (.ok ("alice@example.com", "pa55word"))
        = createAuthenticationToken [aliceUser] (fun _ _ => .mismatch)
          (fun _ => .error "x") (fun _ _ => true)
          (.ok ("alice@example.com", "pa55word"))
    ∧ AuthTokenResp.invalidCredentials.status = 401 :=
  createAuthenticationToken_indistinguishable [] [aliceUser]
    (fun _ _ => .mismatch) (fun _ _ => .mismatch) (fun _ => .error "x")
    (fun _ => .error "x") (fun _ _ => true) "alice@example.com" "pa55word"
    aliceUser rfl (by decide) (by decide) rfl

theorem lookup_singleton (ip : String) (e : ClientEntry) :
    List.lookup ip [(ip, e)] = some e := by
  simp [List.lookup]

theorem setClient_singleton (ip : String) (e c : ClientEntry) :
    setClient [(ip, e)] ip c = [(ip, c)] := by
  simp [setClient]

theorem Limiter.allow_grant (l : Limiter) (now : ℚ)
    (hb : 1 ≤ l.burst)
    (ht : 1 ≤ min l.burst (l.tokens + (now - l.last) * l.limit)) :
    l.allow now = (true,
      { l with
        tokens := min l.burst (l.tokens + (now - l.last) * l.limit) - 1,
        last := now }) := by
  simp only [Limiter.allow]
  rw [if_pos ⟨hb, ht⟩]

theorem Limiter.allow_reject (l : Limiter) (now : ℚ)
    (ht : min l.burst (l.tokens + (now - l.last) * l.limit) < 1) :
    l.allow now = (false, l) := by
  simp only [Limiter.allow]
  rw [if_neg]
  rintro ⟨-, h2⟩
  exact absurd ht (not_lt.mpr h2)

theorem rateLimitStep_lookup (cfg : LimiterConfig)
    (clients : List (String × ClientEntry)) (ip : String) (now : ℚ)
    (entry : ClientEntry) (hen : cfg.enabled = true)
    (hlook : List.lookup ip clients = some entry) :
    rateLimitStep cfg clients ip now =
      ((if (entry.limiter.allow now).1 then RlOutcome.forwarded
        else RlOutcome.rejected 429 "rate limit exceeded"),
       setClient clients ip
         { limiter := (entry.limiter.allow now).2, lastSeen := now }) := by
  rcases ha : entry.limiter.allow now with ⟨allowed, lim⟩
  simp only [rateLimitStep, hen, hlook, ha]
  cases allowed <;> simp

/-- The invariant induction behind C6: starting from a singleton clients
map whose entry has consumed `k` of its `b` tokens (up to the refill
accrued since `t0`), a run of `b + 1 - k` further same-client requests
inside a window that refills less than one token admits all but the last
request and rejects that last one with the 429 response. -/
theorem runRateLimit_drain (cfg : LimiterConfig) (ip : String) (b : ℕ)
    (t0 : ℚ) (hen : cfg.enabled = true) (hr : 0 < cfg.rps) :
    ∀ (ts : List ℚ) (entry : ClientEntry) (k : ℕ),
      entry.limiter.limit = cfg.rps →
      entry.limiter.burst = (b : ℚ) →
      (b : ℚ) - (k : ℚ) ≤ entry.limiter.tokens →
      entry.limiter.tokens ≤ (b : ℚ) - (k : ℚ)
        + cfg.rps * (entry.limiter.last - t0) →
      t0 ≤ entry.limiter.last →
      k + ts.length = b + 1 →
      k ≤ b →
      List.Chain' (· ≤ ·) (entry.limiter.last :: ts) →
      (∀ t ∈ ts, cfg.rps * (t - t0) < 1) →
      (runRateLimit cfg (ts.map fun t => (ip, t)) [(ip, entry)]).1
        = List.replicate (b - k) RlOutcome.forwarded
          ++ [RlOutcome.rejected 429 "rate limit exceeded"] := by
  intro ts
  induction ts with
  | nil =>
    intro entry k _ _ _ _ _ hcount hk _ _
    exfalso
    simp only [List.length_nil] at hcount
    omega
  | cons t ts ih =>
    intro entry k hlim hburst hlow hup ht0 hcount hk hchain hwin
    obtain ⟨hlt, hchain2⟩ := List.chain'_cons.mp hchain
    have hcount2 : k + 1 + ts.length = b + 1 := by
      simp only [List.length_cons] at hcount
      omega
    have hstep := rateLimitStep_lookup cfg [(ip, entry)] ip t entry hen
      (lookup_singleton ip entry)
    have hminle := min_le_right entry.limiter.burst
      (entry.limiter.tokens + (t - entry.limiter.last) * entry.limiter.limit)
    have hring : cfg.rps * (entry.limiter.last - t0)
        + (t - entry.limiter.last) * cfg.rps = cfg.rps * (t - t0) := by
      ring
    have hw : cfg.rps * (t - t0) < 1 := hwin t (by simp)
    by_cases hkb : k = b
    · -- the bucket is drained: this request is rejected
      have hts : ts = [] := List.length_eq_zero.mp (by omega)
      subst hts
      have hbk : (b : ℚ) - (k : ℚ) = 0 := by
        rw [hkb]; ring
      have hadv_lt : min entry.limiter.burst
          (entry.limiter.tokens + (t - entry.limiter.last)
            * entry.limiter.limit) < 1 := by
        rw [hlim] at hminle ⊢
        linarith
      rw [Limiter.allow_reject entry.limiter t hadv_lt] at hstep
      have hstep2 : rateLimitStep cfg [(ip, entry)] ip t
          = (RlOutcome.rejected 429 "rate limit exceeded",
             setClient [(ip, entry)] ip
               { limiter := entry.limiter, lastSeen := t }) := by
        rw [hstep]; simp
      show (runRateLimit cfg ((ip, t) :: List.map (fun t => (ip, t)) [])
          [(ip, entry)]).1 = _
      simp only [runRateLimit, hstep2, List.map_nil]
      simp [hkb]
    · -- a token is available: this request is admitted
      have hklt : k < b := lt_of_le_of_ne hk hkb
      have hb1 : (1 : ℚ) ≤ entry.limiter.burst := by
        rw [hburst]
        exact_mod_cast (by omega : 1 ≤ b)
      have hbk1 : (1 : ℚ) ≤ (b : ℚ) - (k : ℚ) := by
        have : ((k : ℚ)) + 1 ≤ (b : ℚ) := by
          exact_mod_cast (by omega : k + 1 ≤ b)
        linarith
      have hprod : 0 ≤ (t - entry.limiter.last) * entry.limiter.limit := by
        rw [hlim]
        exact mul_nonneg (by linarith) hr.le
      have hadv_ge : (b : ℚ) - (k : ℚ) ≤ min entry.limiter.burst
          (entry.limiter.tokens + (t - entry.limiter.last)
            * entry.limiter.limit) := by
        apply le_min
        · rw [hburst]
          have : (0 : ℚ) ≤ (k : ℚ) := Nat.cast_nonneg k
          linarith
        · linarith
      have hadv1 : (1 : ℚ) ≤ min entry.limiter.burst
          (entry.limiter.tokens + (t - entry.limiter.last)
            * entry.limiter.limit) := le_trans hbk1 hadv_ge
      have hadv_up : min entry.limiter.burst
          (entry.limiter.tokens + (t - entry.limiter.last)
            * entry.limiter.limit)
          ≤ (b : ℚ) - (k : ℚ) + cfg.rps * (t - t0) := by
        rw [hlim] at hminle ⊢
        linarith
      rw [Limiter.allow_grant entry.limiter t hb1 hadv1] at hstep
      rw [setClient_singleton] at hstep
      have hstep2 : rateLimitStep cfg [(ip, entry)] ip t
          = (RlOutcome.forwarded,
             [(ip,
               { limiter :=
                   { entry.limiter with
                     tokens := min entry.limiter.burst
                       (entry.limiter.tokens + (t - entry.limiter.last)
                         * entry.limiter.limit) - 1,
                     last := t },
                 lastSeen := t })]) := by
        rw [hstep]; simp
      have hlow2 : (b : ℚ) - ((k + 1 : ℕ) : ℚ) ≤ min entry.limiter.burst
          (entry.limiter.tokens + (t - entry.limiter.last)
            * entry.limiter.limit) - 1 := by
        push_cast
        linarith
      have hup2 : min entry.limiter.burst
          (entry.limiter.tokens + (t - entry.limiter.last)
            * entry.limiter.limit) - 1
          ≤ (b : ℚ) - ((k + 1 : ℕ) : ℚ) + cfg.rps * (t - t0) := by
        push_cast
        linarith
      have hrec := ih
        { limiter :=
            { entry.limiter with
              tokens := min entry.limiter.burst
                (entry.limiter.tokens + (t - entry.limiter.last)
                  * entry.limiter.limit) - 1,
              last := t },
          lastSeen := t }
        (k + 1) hlim hburst hlow2 hup2 (le_trans ht0 hlt) hcount2
        (by omega) hchain2
        (fun t2 ht2 => hwin t2 (List.mem_cons_of_mem t ht2))
      have hrepl : b - k = (b - (k + 1)) + 1 := by omega
      show (runRateLimit cfg ((ip, t) :: List.map (fun t => (ip, t)) ts)
          [(ip, entry)]).1 = _
      simp only [runRateLimit, hstep2]
      rw [hrec, hrepl, List.replicate_succ]
      simp

/-- C6: with the limiter enabled at rate `rps > 0` and burst capacity
`b`, a client issuing `b + 1` requests inside a window that refills less
than one token (for every request time `t`, `rps * (t - t0) < 1`) gets
exactly `b` requests forwarded and the final one rejected with the 429
"rate limit exceeded" throttling response — never an authentication
error. -/
theorem rateLimit_burst_spec (cfg : LimiterConfig) (ip : String) (b : ℕ)
    (t0 : ℚ) (ts : List ℚ)
    (hen : cfg.enabled = true) (hr : 0 < cfg.rps) (hb : cfg.burst = (b : ℚ))
    (hlen : ts.length = b)
    (hchain : List.Chain' (· ≤ ·) (t0 :: ts))
    (hwin : ∀ t ∈ ts, cfg.rps * (t - t0) < 1) :
    (runRateLimit cfg ((t0 :: ts).map fun t => (ip, t)) []).1
      = List.replicate b RlOutcome.forwarded
        ++ [RlOutcome.rejected 429 "rate limit exceeded"] := by
  have hfirst : rateLimitStep cfg [] ip t0
      = rateLimitStep cfg
          [(ip, { limiter := Limiter.new cfg.rps cfg.burst t0, lastSeen := t0 })]
          ip t0 := by
    simp [rateLimitStep, hen, List.lookup, setClient]
  have hruns : (runRateLimit cfg ((t0 :: ts).map fun t => (ip, t)) []).1
      = (runRateLimit cfg ((t0 :: ts).map fun t => (ip, t))
          [(ip, { limiter := Limiter.new cfg.rps cfg.burst t0,
                  lastSeen := t0 })]).1 := by
    simp only [List.map_cons, runRateLimit, hfirst]
  rw [hruns]
  have hzero : cfg.rps * (t0 - t0) = 0 := by ring
  refine runRateLimit_drain cfg ip b t0 hen hr (t0 :: ts)
    { limiter := Limiter.new cfg.rps cfg.burst t0, lastSeen := t0 } 0
    rfl hb ?_ ?_ (le_refl t0) ?_ (Nat.zero_le b) ?_ ?_
  · show (b : ℚ) - ((0 : ℕ) : ℚ) ≤ cfg.burst
    rw [hb]
    simp
  · show cfg.burst ≤ (b : ℚ) - ((0 : ℕ) : ℚ) + cfg.rps * (t0 - t0)
    rw [hb, hzero]
    simp
  · show 0 + (t0 :: ts).length = b + 1
    simp [hlen]
  · exact List.chain'_cons.mpr ⟨le_refl t0, hchain⟩
  · intro t ht
    rcases List.mem_cons.mp ht with h | h
    · subst h
      rw [hzero]
      norm_num
    · exact hwin t h

/-- C6 witness: the spec scenario — rate 2/s, burst 4, five requests from
one client inside half a second: the first four are forwarded, the fifth
is rejected with the 429 throttling response. -/
theorem rateLimit_burst_spec_witness :
    (runRateLimit { enabled := true, rps := 2, burst := 4 }
        (([0, 1/10, 2/10, 3/10, 4/10] : List ℚ).map fun t => ("192.0.2.1", t))
        []).1
      = List.replicate 4 RlOutcome.forwarded
        ++ [RlOutcome.rejected 429 "rate limit exceeded"] :=
  rateLimit_burst_spec { enabled := true, rps := 2, burst := 4 } "192.0.2.1"
    4 0 [1/10, 2/10, 3/10, 4/10] rfl (by norm_num) (by norm_num) rfl
    (by norm_num)
    (by
      intro t ht
      fin_cases ht <;> norm_num)

theorem mem_setClient {m : List (String × ClientEntry)} {ip : String}
    {c : ClientEntry} {e : String × ClientEntry}
    (h : e ∈ setClient m ip c) : e ∈ m ∨ e = (ip, c) := by
  induction m with
  | nil =>
    simp only [setClient, List.mem_singleton] at h
    exact Or.inr h
  | cons kv m ih =>
    rcases kv with ⟨k, v⟩
    by_cases hk : (k == ip) = true
    · simp only [setClient, hk, if_true] at h
      rcases List.mem_cons.mp h with h1 | h1
      · right
        rw [h1, beq_iff_eq.mp hk]
      · exact Or.inl (List.mem_cons_of_mem _ h1)
    · simp only [setClient, hk, if_false] at h
      rcases List.mem_cons.mp h with h1 | h1
      · rw [h1]
        exact Or.inl (List.mem_cons_self _ _)
      · rcases ih h1 with h2 | h2
        · exact Or.inl (List.mem_cons_of_mem _ h2)
        · exact Or.inr h2

theorem mem_rateLimitStep {cfg : LimiterConfig}
    {st : List (String × ClientEntry)} {ip2 : String} {t : ℚ}
    {e : String × ClientEntry}
    (h : e ∈ (rateLimitStep cfg st ip2 t).2) :
    e ∈ st ∨ (e.1 = ip2 ∧ e.2.lastSeen = t) := by
  have conclude : ∀ lim : Limiter,
      e ∈ setClient st ip2 { limiter := lim, lastSeen := t } →
      e ∈ st ∨ (e.1 = ip2 ∧ e.2.lastSeen = t) := by
    intro lim h1
    rcases mem_setClient h1 with h2 | h2
    · exact Or.inl h2
    · exact Or.inr (by rw [h2]; exact ⟨rfl, rfl⟩)
  cases hen : cfg.enabled with
  | false =>
    simp only [rateLimitStep, hen, Bool.not_false, if_true] at h
    exact Or.inl h
  | true =>
    rcases hlook : List.lookup ip2 st with _ | entry
    · rcases ha : (Limiter.new cfg.rps cfg.burst t).allow t with ⟨allowed, lim⟩
      simp only [rateLimitStep, hen, hlook, ha] at h
      cases allowed <;> simp only [Bool.not_true, Bool.not_false, if_true,
        if_false] at h <;> exact conclude lim h
    · rcases ha : entry.limiter.allow t with ⟨allowed, lim⟩
      simp only [rateLimitStep, hen, hlook, ha] at h
      cases allowed <;> simp only [Bool.not_true, Bool.not_false, if_true,
        if_false] at h <;> exact conclude lim h

theorem processEvents_lastSeen_le (cfg : LimiterConfig) (ip : String)
    (s : ℚ) :
    ∀ (events : List RlEvent) (st : List (String × ClientEntry)),
      (∀ t, RlEvent.request ip t ∈ events → t ≤ s) →
      (∀ e ∈ st, e.1 = ip → e.2.lastSeen ≤ s) →
      ∀ e ∈ processEvents cfg events st, e.1 = ip → e.2.lastSeen ≤ s := by
  intro events
  induction events with
  | nil =>
    intro st _ hst
    simpa [processEvents] using hst
  | cons ev events ih =>
    intro st hreq hst
    have hstep : ∀ e ∈ processEvent cfg st ev, e.1 = ip →
        e.2.lastSeen ≤ s := by
      cases ev with
      | request ip2 t =>
        intro e he hip
        rcases mem_rateLimitStep he with h1 | ⟨h1, h2⟩
        · exact hst e h1 hip
        · rw [h2]
          apply hreq t
          rw [show ip = ip2 from (h1.symm.trans hip).symm]
          exact List.mem_cons_self _ _
      | scan t =>
        intro e he hip
        exact hst e (List.mem_of_mem_filter he) hip
    exact ih (processEvent cfg st ev)
      (fun t ht => hreq t (List.mem_cons_of_mem _ ht)) hstep

theorem processEvents_absent (cfg : LimiterConfig) (ip : String) :
    ∀ (events : List RlEvent) (st : List (String × ClientEntry)),
      (∀ t, RlEvent.request ip t ∉ events) →
      (∀ e ∈ st, e.1 ≠ ip) →
      ∀ e ∈ processEvents cfg events st, e.1 ≠ ip := by
  intro events
  induction events with
  | nil =>
    intro st _ hst
    simpa [processEvents] using hst
  | cons ev events ih =>
    intro st hreq hst
    have hstep : ∀ e ∈ processEvent cfg st ev, e.1 ≠ ip := by
      cases ev with
      | request ip2 t =>
        intro e he hip
        rcases mem_rateLimitStep he with h1 | ⟨h1, -⟩
        · exact hst e h1 hip
        · apply hreq t
          rw [show ip = ip2 from (h1.symm.trans hip).symm]
          exact List.mem_cons_self _ _
      | scan t =>
        intro e he
        exact hst e (List.mem_of_mem_filter he)
    exact ih (processEvent cfg st ev)
      (fun t ht => hreq t (List.mem_cons_of_mem _ ht)) hstep

theorem lookup_eq_none_of_keys (ip : String) :
    ∀ m : List (String × ClientEntry), (∀ e ∈ m, e.1 ≠ ip) →
      List.lookup ip m = none := by
  intro m
  induction m with
  | nil => intro; rfl
  | cons kv m ih =>
    intro h
    rcases kv with ⟨k, v⟩
    have hk : k ≠ ip := h (k, v) (List.mem_cons_self _ _)
    have hbeq : (ip == k) = false := beq_eq_false_iff_ne.mpr (Ne.symm hk)
    simp only [List.lookup, hbeq]
    exact ih (fun e he => h e (List.mem_cons_of_mem _ he))

/-- C9: the eviction scan retains exactly the clients seen within the
180-second idle threshold (first part); if a client sends no request
after time `s` and a scan runs later than `s + 180`, the client is no
longer tracked at the end of the trace (second part); and with scans at
the fixed 60-second interval (times `60 * (k + 1)`), such a scan always
exists by `s + 180 + 60`, so an idle client is gone no later than the
idle threshold plus one scan interval (third part). -/
theorem rateLimit_eviction_spec :
    (∀ (now : ℚ) (clients : List (String × ClientEntry))
        (e : String × ClientEntry),
      e ∈ evictScan now clients ↔ e ∈ clients ∧ now - e.2.lastSeen ≤ 180)
    ∧ (∀ (cfg : LimiterConfig) (pre post : List RlEvent) (ip : String)
        (tS s : ℚ),
      (∀ t, RlEvent.request ip t ∈ pre → t ≤ s) →
      s + 180 < tS →
      (∀ t, RlEvent.request ip t ∉ post) →
      List.lookup ip
        (processEvents cfg (pre ++ RlEvent.scan tS :: post) []) = none)
    ∧ (∀ s : ℚ, 0 ≤ s → ∃ k : ℕ,
        s + 180 < 60 * ((k : ℚ) + 1) ∧ 60 * ((k : ℚ) + 1) ≤ s + 240) := by
  refine ⟨?_, ?_, ?_⟩
  · intro now clients e
    simp [evictScan, List.mem_filter, not_lt]
  · intro cfg pre post ip tS s hpre htS hpost
    have hsplit : processEvents cfg (pre ++ RlEvent.scan tS :: post) []
        = processEvents cfg post
            (evictScan tS (processEvents cfg pre [])) := by
      simp [processEvents, List.foldl_append, processEvent]
    rw [hsplit]
    apply lookup_eq_none_of_keys
    apply processEvents_absent cfg ip post _ hpost
    intro e he hip
    have hmem := List.mem_of_mem_filter he
    have hkeep := List.of_mem_filter he
    have hlast : e.2.lastSeen ≤ s :=
      processEvents_lastSeen_le cfg ip s pre [] hpre (by simp) e hmem hip
    simp only [Bool.not_eq_true', decide_eq_false_iff_not, not_lt] at hkeep
    linarith
  · intro s hs
    refine ⟨(⌊s / 60⌋).toNat + 3, ?_, ?_⟩
    all_goals {
      have h0 : (0 : ℚ) ≤ s / 60 := by positivity
      have hface : (((⌊s / 60⌋).toNat : ℤ)) = ⌊s / 60⌋ :=
        Int.toNat_of_nonneg (Int.floor_nonneg.mpr h0)
      have hc2 : (((⌊s / 60⌋).toNat : ℕ) : ℚ) = ((⌊s / 60⌋ : ℤ) : ℚ) := by
        exact_mod_cast congrArg (fun z : ℤ => (z : ℚ)) hface
      have hfl : ((⌊s / 60⌋ : ℤ) : ℚ) ≤ s / 60 := Int.floor_le _
      have hfg : s / 60 - 1 < ((⌊s / 60⌋ : ℤ) : ℚ) := Int.sub_one_lt_floor _
      have hdiv : 60 * (s / 60) = s := by ring
      push_cast
      push_cast at hc2
      linarith
    }

end Greenlight
